import Mathlib

/-!
Shallow embedding of `src/fast_agent/llm/schema/system_prompt.py` — the
"chips" system-prompt composition engine — together with theorems checking
the natural-language specification against it.

Modelling conventions:
* Python dicts of chips become association lists `List (String × SystemPromptChipSchema)`
  with first-match lookup; `chipsSet` overwrites in place (preserving the
  entry's position, as a Python dict does) or appends a fresh key.
* Mutating methods of the `SystemPrompt` composer only touch the owned
  `SystemPromptChipsSchema` value (`self.chips`), so they are modelled as
  functions on that state.  Each fallible method returns a pair
  `(Except Err α) × State`: in the Python source every `raise` happens
  before any mutation, so the error branch pairs the error with the input
  state unchanged.
* `list.insert(i, x)` in Python clamps an index beyond the end to an
  append; `listInsert` mirrors that.  Negative indices never reach the
  underlying list because every method checks `index < 0` first, so the
  index argument is an `Int` and checked code converts it with `.toNat`.
* The distinct `ValueError` messages raised by the source are mapped to
  constructors of `Err` (duplicate key, index range, key not found,
  invalid prompt type).
-/

namespace FastAgent

/-- `DEFAULT_SYSTEM_PROMPT_CHIP_KEY` module-level constant. -/
def DEFAULT_SYSTEM_PROMPT_CHIP_KEY : String := "default"

/-- `SystemPromptChipMetadataSchema`: per-chip metadata, guaranteed field `ignore` (default false). -/
structure SystemPromptChipMetadataSchema where
  ignore : Bool := false
deriving DecidableEq, Repr

/-- `SystemPromptChipMetadataSchema.default()` classmethod. -/
def SystemPromptChipMetadataSchema.default : SystemPromptChipMetadataSchema :=
  { ignore := false }

/-- `SystemPromptChipSchema`: a named fragment of text with metadata. -/
structure SystemPromptChipSchema where
  name : String
  content : String
  metadata : SystemPromptChipMetadataSchema := SystemPromptChipMetadataSchema.default
deriving DecidableEq, Repr

/-- `SystemPromptChipSchema.default(content)` classmethod: default-keyed chip. -/
def SystemPromptChipSchema.default (content : String) : SystemPromptChipSchema :=
  { name := DEFAULT_SYSTEM_PROMPT_CHIP_KEY, content := content }

/-- First-match lookup in the chips association list (`dict.get`). -/
def chipsGet : List (String × SystemPromptChipSchema) → String → Option SystemPromptChipSchema
  | [], _ => none
  | (k', c) :: t, k => if k' = k then some c else chipsGet t k

/-- Key membership in the chips association list (`key in dict`). -/
def chipsContains (l : List (String × SystemPromptChipSchema)) (k : String) : Bool :=
  (chipsGet l k).isSome

/-- `dict[k] = c`: overwrite the entry in place if the key exists (keeping its
position, as a Python dict does), otherwise append a fresh entry. -/
def chipsSet : List (String × SystemPromptChipSchema) → String → SystemPromptChipSchema →
    List (String × SystemPromptChipSchema)
  | [], k, c => [(k, c)]
  | (k', c') :: t, k, c => if k' = k then (k, c) :: t else (k', c') :: chipsSet t k c

/-- `dict.pop(k)`: drop the (first) entry with the given key. -/
def chipsErase : List (String × SystemPromptChipSchema) → String →
    List (String × SystemPromptChipSchema)
  | [], _ => []
  | (k', c') :: t, k => if k' = k then t else (k', c') :: chipsErase t k

/-- `SystemPromptChipsSchema`: order list + splitter + keyed chips. -/
structure SystemPromptChipsSchema where
  order : List String := []
  splitter : String := "\n\n"
  chips : List (String × SystemPromptChipSchema) := []
deriving DecidableEq, Repr

/-- `SystemPromptChipsSchema.default(content)` classmethod: a single default-keyed chip. -/
def SystemPromptChipsSchema.default (content : String) : SystemPromptChipsSchema :=
  { order := [DEFAULT_SYSTEM_PROMPT_CHIP_KEY]
    splitter := "\n\n"
    chips := [(DEFAULT_SYSTEM_PROMPT_CHIP_KEY, SystemPromptChipSchema.default content)] }

/-- A raw chip value as accepted by `_normalize_chip`: either an already-typed
`SystemPromptChipSchema`, or a dict payload with optional `name`/`metadata`. -/
inductive ChipValue where
  | chip (c : SystemPromptChipSchema)
  | record (name : Option String) (content : String)
      (metadata : Option SystemPromptChipMetadataSchema)
deriving DecidableEq, Repr

/-- `SystemPromptChipsSchema._normalize_chip(key, value)`: build a chip from the
raw value (filling `name` from the key when absent) and, when the resulting
name disagrees with the key, return a corrected copy whose name is the key. -/
def SystemPromptChipsSchema.normalize_chip (key : String) : ChipValue → SystemPromptChipSchema
  | .chip c => if c.name = key then c else { c with name := key }
  | .record name? content metadata? =>
      let c : SystemPromptChipSchema :=
        { name := name?.getD key
          content := content
          metadata := metadata?.getD SystemPromptChipMetadataSchema.default }
      if c.name = key then c else { c with name := key }

/-- The structured record accepted by `SystemPromptChipsSchema.from_dict`:
`order` defaults to `[]`, `splitter` to two newlines, `chips` is required. -/
structure ChipsDictData where
  order : List String := []
  splitter : String := "\n\n"
  chips : List (String × ChipValue)
deriving DecidableEq, Repr

/-- `SystemPromptChipsSchema.from_dict(data)`: normalize every chip entry
against its key.  (The `chips`-is-not-a-dict `ValueError` is unreachable here
because the record type already requires a mapping.) -/
def SystemPromptChipsSchema.from_dict (d : ChipsDictData) : SystemPromptChipsSchema :=
  { order := d.order
    splitter := d.splitter
    chips := d.chips.map fun p => (p.1, SystemPromptChipsSchema.normalize_chip p.1 p.2) }

/-- `str.join` in Python: parts joined with the separator between them. -/
def joinWith (sep : String) : List String → String
  | [] => ""
  | [x] => x
  | x :: y :: t => x ++ sep ++ joinWith sep (y :: t)

/-- The per-key contribution of `to_str`: the chip's content when the key
resolves to a chip that is not ignored, nothing otherwise. -/
def chipPart (chips : List (String × SystemPromptChipSchema)) (k : String) : Option String :=
  match chipsGet chips k with
  | some c => if c.metadata.ignore then none else some c.content
  | none => none

/-- `SystemPromptChipsSchema.to_str()`: walk `order`, skip dangling or ignored
keys, join surviving contents with `splitter`. -/
def SystemPromptChipsSchema.to_str (s : SystemPromptChipsSchema) : String :=
  joinWith s.splitter (s.order.filterMap (chipPart s.chips))

/-- The per-key contribution of `to_xml`: a `<key>\ncontent\n</key>` block. -/
def chipXmlPart (chips : List (String × SystemPromptChipSchema)) (k : String) : Option String :=
  match chipsGet chips k with
  | some c =>
      if c.metadata.ignore then none
      else some ("<" ++ k ++ ">\n" ++ c.content ++ "\n</" ++ k ++ ">")
  | none => none

/-- `SystemPromptChipsSchema.to_xml()`: same traversal and filter as `to_str`,
tagged blocks joined with a single newline. -/
def SystemPromptChipsSchema.to_xml (s : SystemPromptChipsSchema) : String :=
  joinWith "\n" (s.order.filterMap (chipXmlPart s.chips))

/-- Error kinds corresponding to the distinct `ValueError` raise sites of the
composer's methods. -/
inductive Err where
  | duplicateKey (key : String)
  | indexRange (index : Int)
  | keyNotFound (key : String)
  | invalidMode
deriving DecidableEq, Repr

/-- Python `list.insert(i, x)` for a non-negative index: insert before
position `i`, clamping an index beyond the end to an append. -/
def listInsert {α : Type} : Nat → α → List α → List α
  | 0, a, l => a :: l
  | _ + 1, a, [] => [a]
  | n + 1, a, x :: l => x :: listInsert n a l

/-- The `content` argument accepted by `add` / `insert` / `update`:
a plain string, a typed chip, or a dict payload. -/
inductive ChipContent where
  | str (s : String)
  | chip (c : SystemPromptChipSchema)
  | record (name : Option String) (content : String)
      (metadata : Option SystemPromptChipMetadataSchema)
deriving DecidableEq, Repr

/-- The chip each mutating method constructs from its `content` argument:
a plain string becomes `SystemPromptChipSchema(name=key, content=content)`,
anything else goes through `_normalize_chip(key, content)`. -/
def mkChipFromContent (key : String) : ChipContent → SystemPromptChipSchema
  | .str s => { name := key, content := s }
  | .chip c => SystemPromptChipsSchema.normalize_chip key (.chip c)
  | .record n c m => SystemPromptChipsSchema.normalize_chip key (.record n c m)

/-- The observable effect of the in-place assignment
`chip.metadata.ignore = False`: the same chip with `ignore` cleared. -/
def awakeChip (c : SystemPromptChipSchema) : SystemPromptChipSchema :=
  { c with metadata := { c.metadata with ignore := false } }

namespace SystemPrompt

/-- `SystemPrompt.add(key, content)`: fail on an existing key, otherwise store
the chip and append the key to `order` when it is not already there. -/
def add (st : SystemPromptChipsSchema) (key : String) (content : ChipContent) :
    Except Err SystemPromptChipSchema × SystemPromptChipsSchema :=
  if chipsContains st.chips key then
    (.error (.duplicateKey key), st)
  else
    let chip := mkChipFromContent key content
    (.ok chip,
      { st with
        chips := chipsSet st.chips key chip
        order := if key ∈ st.order then st.order else st.order ++ [key] })

/-- `SystemPrompt.insert(key, content, index)`: fail on an existing key or an
index outside `[0, len(order)]`, otherwise store the chip and insert the key
into `order` at the index (no check whether the key already occurs in `order`). -/
def insert (st : SystemPromptChipsSchema) (key : String) (content : ChipContent)
    (index : Int) : Except Err SystemPromptChipSchema × SystemPromptChipsSchema :=
  if chipsContains st.chips key then
    (.error (.duplicateKey key), st)
  else if index < 0 ∨ index > (st.order.length : Int) then
    (.error (.indexRange index), st)
  else
    let chip := mkChipFromContent key content
    (.ok chip,
      { st with
        chips := chipsSet st.chips key chip
        order := listInsert index.toNat key st.order })

/-- `SystemPrompt.move(key, index)`: require the key in `chips` and in `order`
and an index inside `[0, len(order)-1]`, then remove the key's first occurrence
from `order` and reinsert it at the index. -/
def move (st : SystemPromptChipsSchema) (key : String) (index : Int) :
    Except Err Unit × SystemPromptChipsSchema :=
  if ¬ chipsContains st.chips key then
    (.error (.keyNotFound key), st)
  else if key ∉ st.order then
    (.error (.keyNotFound key), st)
  else if index < 0 ∨ index ≥ (st.order.length : Int) then
    (.error (.indexRange index), st)
  else
    (.ok (), { st with order := listInsert index.toNat key (st.order.erase key) })

/-- `SystemPrompt.remove(key)`: report whether the key existed; when it did,
drop it from `chips` and filter every occurrence out of `order`. -/
def remove (st : SystemPromptChipsSchema) (key : String) :
    Bool × SystemPromptChipsSchema :=
  if ¬ chipsContains st.chips key then
    (false, st)
  else
    (true,
      { st with
        chips := chipsErase st.chips key
        order := st.order.filter fun k => k ≠ key })

/-- `SystemPrompt.ignore(key)`: soft-delete, setting `metadata.ignore := true`. -/
def ignore (st : SystemPromptChipsSchema) (key : String) :
    Except Err String × SystemPromptChipsSchema :=
  match chipsGet st.chips key with
  | none => (.error (.keyNotFound key), st)
  | some c =>
      (.ok key,
        { st with chips := chipsSet st.chips key { c with metadata := { c.metadata with ignore := true } } })

/-- `SystemPrompt.wakeup(key)`: set `metadata.ignore := false` (idempotent). -/
def wakeup (st : SystemPromptChipsSchema) (key : String) :
    Except Err String × SystemPromptChipsSchema :=
  match chipsGet st.chips key with
  | none => (.error (.keyNotFound key), st)
  | some c =>
      (.ok key,
        { st with chips := chipsSet st.chips key { c with metadata := { c.metadata with ignore := false } } })

/-- `SystemPrompt.toggle(key)`: flip `metadata.ignore`. -/
def toggle (st : SystemPromptChipsSchema) (key : String) :
    Except Err String × SystemPromptChipsSchema :=
  match chipsGet st.chips key with
  | none => (.error (.keyNotFound key), st)
  | some c =>
      (.ok key,
        { st with chips := chipsSet st.chips key { c with metadata := { c.metadata with ignore := !c.metadata.ignore } } })

/-- The loop body of `wakeup_all`, recursing over the keys of `order`:
every key whose chip exists and is ignored is woken and collected. -/
def wakeupAllAux (keys : List String) (st : SystemPromptChipsSchema) :
    List String × SystemPromptChipsSchema :=
  match keys with
  | [] => ([], st)
  | k :: ks =>
      match chipsGet st.chips k with
      | some c =>
          if c.metadata.ignore then
            let st' := { st with chips := chipsSet st.chips k (awakeChip c) }
            let r := wakeupAllAux ks st'
            (k :: r.1, r.2)
          else wakeupAllAux ks st
      | none => wakeupAllAux ks st

/-- `SystemPrompt.wakeup_all()`: wake every ignored chip reachable from
`order`, returning the keys actually woken in traversal sequence. -/
def wakeup_all (st : SystemPromptChipsSchema) :
    List String × SystemPromptChipsSchema :=
  wakeupAllAux st.order st

/-- `SystemPrompt.update(content, key=DEFAULT)`: upsert — overwrite the chip
stored under the key with a newly constructed one, appending the key to
`order` only when it is not already there. -/
def update (st : SystemPromptChipsSchema) (content : ChipContent)
    (key : String := DEFAULT_SYSTEM_PROMPT_CHIP_KEY) : SystemPromptChipsSchema :=
  { st with
    chips := chipsSet st.chips key (mkChipFromContent key content)
    order := if key ∈ st.order then st.order else st.order ++ [key] }

/-- `SystemPrompt.get(key)`: the chip or `none`. -/
def get (st : SystemPromptChipsSchema) (key : String) : Option SystemPromptChipSchema :=
  chipsGet st.chips key

end SystemPrompt

/-- `SystemPrompt.PromptType` enum. -/
inductive PromptType where
  | STR
  | XML
deriving DecidableEq, Repr

/-- The `type` argument of `get_system_prompt`: `None`, a `PromptType` member,
or a string literal. -/
inductive PromptTypeArg where
  | unspecified
  | en (t : PromptType)
  | lit (s : String)
deriving DecidableEq, Repr

/-- The composer object: the owned chip set plus the optional rendering
overrides supplied at construction. -/
structure SystemPromptObj where
  chips : SystemPromptChipsSchema
  to_str : Option (SystemPromptChipsSchema → String) := none
  to_xml : Option (SystemPromptChipsSchema → String) := none

/-- The `content` argument of `SystemPrompt.__init__` / `replace_chips`:
a plain string, a structured record, or an existing chip-set value. -/
inductive InitContent where
  | str (s : String)
  | dict (d : ChipsDictData)
  | schema (c : SystemPromptChipsSchema)

/-- `SystemPrompt.__init__(content, to_str, to_xml)`: a string is wrapped via
`SystemPromptChipsSchema.default`, a dict goes through `from_dict`, and an
existing `SystemPromptChipsSchema` value is stored as given, unmodified. -/
def SystemPromptObj.ofContent (content : InitContent)
    (to_str to_xml : Option (SystemPromptChipsSchema → String) := none) : SystemPromptObj :=
  { chips :=
      match content with
      | .str s => SystemPromptChipsSchema.default s
      | .dict d => SystemPromptChipsSchema.from_dict d
      | .schema c => c
    to_str := to_str
    to_xml := to_xml }

/-- The flat-text rendering `get_system_prompt` uses: the injected override
when one was supplied, else the default `to_str`. -/
def SystemPromptObj.strRender (sp : SystemPromptObj) : String :=
  match sp.to_str with
  | some f => f sp.chips
  | none => sp.chips.to_str

/-- The tagged-markup rendering `get_system_prompt` uses: the injected
override when one was supplied, else the default `to_xml`. -/
def SystemPromptObj.xmlRender (sp : SystemPromptObj) : String :=
  match sp.to_xml with
  | some f => f sp.chips
  | none => sp.chips.to_xml

/-- `SystemPrompt.get_system_prompt(type)`: `None`, `PromptType.STR` and
`"str"` render flat text, `PromptType.XML` and `"xml"` render tagged markup,
anything else raises. -/
def SystemPromptObj.get_system_prompt (sp : SystemPromptObj)
    (t : PromptTypeArg := .unspecified) : Except Err String :=
  match t with
  | .unspecified => .ok sp.strRender
  | .en .STR => .ok sp.strRender
  | .en .XML => .ok sp.xmlRender
  | .lit s =>
      if s = "str" then .ok sp.strRender
      else if s = "xml" then .ok sp.xmlRender
      else .error .invalidMode

end FastAgent

namespace FastAgent

/-! ### Helper lemmas about the chips association list and `listInsert` -/

theorem chipsGet_set_self (l : List (String × SystemPromptChipSchema)) (k : String)
    (c : SystemPromptChipSchema) : chipsGet (chipsSet l k c) k = some c := by
  induction l with
  | nil => simp [chipsSet, chipsGet]
  | cons p t ih =>
      obtain ⟨k', c'⟩ := p
      by_cases h : k' = k
      · simp [chipsSet, h, chipsGet]
      · simp [chipsSet, h, chipsGet, ih]

theorem chipsGet_set_ne (l : List (String × SystemPromptChipSchema)) (k k' : String)
    (c : SystemPromptChipSchema) (h : k' ≠ k) :
    chipsGet (chipsSet l k c) k' = chipsGet l k' := by
  induction l with
  | nil => simp [chipsSet, chipsGet, Ne.symm h]
  | cons p t ih =>
      obtain ⟨k₀, c₀⟩ := p
      by_cases hk : k₀ = k
      · subst hk
        simp [chipsSet, chipsGet, Ne.symm h]
      · simp [chipsSet, hk, chipsGet, ih]

theorem chipsGet_mem (l : List (String × SystemPromptChipSchema)) (k : String)
    (c : SystemPromptChipSchema) (h : chipsGet l k = some c) : (k, c) ∈ l := by
  induction l with
  | nil => simp [chipsGet] at h
  | cons p t ih =>
      obtain ⟨k', c'⟩ := p
      by_cases hk : k' = k
      · subst hk
        simp [chipsGet] at h
        subst h
        exact List.mem_cons_self _ _
      · simp [chipsGet, hk] at h
        exact List.mem_cons_of_mem _ (ih h)

theorem listInsert_length {α : Type} (n : Nat) (a : α) (l : List α) :
    (listInsert n a l).length = l.length + 1 := by
  induction n generalizing l with
  | zero => simp [listInsert]
  | succ n ih =>
      cases l with
      | nil => simp [listInsert]
      | cons x t => simp [listInsert, ih]

theorem listInsert_count (n : Nat) (a : String) (l : List String) :
    (listInsert n a l).count a = l.count a + 1 := by
  induction n generalizing l with
  | zero => simp [listInsert, List.count_cons]
  | succ n ih =>
      cases l with
      | nil => simp [listInsert]
      | cons x t =>
          simp [listInsert, List.count_cons, ih]
          omega

theorem filterMap_filter_ne (f : String → Option String) (k : String) (l : List String)
    (h : f k = none) :
    (l.filter fun x => x ≠ k).filterMap f = l.filterMap f := by
  induction l with
  | nil => rfl
  | cons x t ih =>
      simp only [ne_eq, decide_not] at ih ⊢
      by_cases hx : x = k
      · subst hx
        rw [List.filter_cons_of_neg (by simp)]
        rw [ih]
        simp [List.filterMap_cons, h]
      · rw [List.filter_cons_of_pos (by simp [hx])]
        cases hf : f x <;> simp [List.filterMap_cons, hf, ih]

/-! ### C1: flat-text rendering -/

/-- C1. `to_str` traverses `order` in sequence, silently skips any key whose
chip is missing or whose `metadata.ignore` is true, and joins the surviving
contents with `splitter`; a skipped key (dangling or ignored) yields the same
output as if it were absent from `order`; when every key is skipped the result
is the empty string; and with order `[k, k']` where `k` is skipped and `k'`
survives the render is exactly the surviving content, with no leading
splitter. -/
theorem to_str_spec (st : SystemPromptChipsSchema) :
    st.to_str = joinWith st.splitter (st.order.filterMap (chipPart st.chips)) ∧
    (∀ k, chipPart st.chips k = none →
      st.to_str =
        SystemPromptChipsSchema.to_str { st with order := st.order.filter fun x => x ≠ k }) ∧
    ((∀ k ∈ st.order, chipPart st.chips k = none) → st.to_str = "") ∧
    (∀ k k' c, st.order = [k, k'] → chipPart st.chips k = none →
      chipsGet st.chips k' = some c → c.metadata.ignore = false →
      st.to_str = c.content) := by
  refine ⟨rfl, ?_, ?_, ?_⟩
  · intro k hk
    show joinWith st.splitter (st.order.filterMap (chipPart st.chips)) =
      joinWith st.splitter ((st.order.filter fun x => x ≠ k).filterMap (chipPart st.chips))
    rw [filterMap_filter_ne _ _ _ hk]
  · intro h
    show joinWith st.splitter (st.order.filterMap (chipPart st.chips)) = ""
    rw [List.filterMap_eq_nil_iff.mpr h]
    rfl
  · intro k k' c horder hk hget hig
    have hk2 : chipPart st.chips k' = some c.content := by
      simp [chipPart, hget, hig]
    show joinWith st.splitter (st.order.filterMap (chipPart st.chips)) = c.content
    rw [horder]
    simp [List.filterMap_cons, hk, hk2, joinWith]

/-- Witness for C1 at a concrete chip set whose single order key is dangling. -/
theorem to_str_spec_witness :
    SystemPromptChipsSchema.to_str { order := ["a"], splitter := "\n\n", chips := [] } = "" :=
  (to_str_spec _).2.2.1 (by decide)

end FastAgent

namespace FastAgent

/-! ### C2: concrete construct / insert / move / render scenario -/

/-- The structured record of the concrete scenario. -/
def scenarioDict : ChipsDictData :=
  { order := ["a", "b"]
    splitter := "\n\n"
    chips := [("a", .record (some "a") "A" none), ("b", .record (some "b") "B" none)] }

/-- The composer state constructed from `scenarioDict`. -/
def scenarioSt0 : SystemPromptChipsSchema := SystemPromptChipsSchema.from_dict scenarioDict

/-- The state after `insert("x", "X", 1)`. -/
def scenarioSt1 : SystemPromptChipsSchema :=
  (SystemPrompt.insert scenarioSt0 "x" (.str "X") 1).2

/-- The state after the subsequent `move("x", 0)`. -/
def scenarioSt2 : SystemPromptChipsSchema := (SystemPrompt.move scenarioSt1 "x" 0).2

/-- C2. From `{"order": ["a","b"], "splitter": "\n\n", chips a ↦ A, b ↦ B}`,
`insert("x","X",1)` yields order `["a","x","b"]`, then `move("x",0)` yields
order `["x","a","b"]`, and flat-text rendering returns `"X\n\nA\n\nB"`. -/
theorem scenario_insert_move_render :
    scenarioSt1.order = ["a", "x", "b"] ∧
    scenarioSt2.order = ["x", "a", "b"] ∧
    scenarioSt2.to_str = "X\n\nA\n\nB" := by decide

/-! ### C3: index bounds and order-length effects of insert / move -/

/-- C3. `insert` with a fresh key requires `0 ≤ i ≤ len(order)` and on success
grows `order` by exactly one; `move` with a key present in `chips` and `order`
requires `0 ≤ i ≤ len(order) - 1` and preserves the length of `order`; an
index outside the respective range makes the call fail with the index-range
error (`IndexRangeError`), the two upper bounds differing by exactly one. -/
theorem insert_move_bounds (st : SystemPromptChipsSchema) (key : String)
    (content : ChipContent) (i : Int) :
    (chipsContains st.chips key = false → 0 ≤ i → i ≤ (st.order.length : Int) →
      (SystemPrompt.insert st key content i).1 = .ok (mkChipFromContent key content) ∧
      (SystemPrompt.insert st key content i).2.order.length = st.order.length + 1) ∧
    (chipsContains st.chips key = true → key ∈ st.order →
      0 ≤ i → i ≤ (st.order.length : Int) - 1 →
      (SystemPrompt.move st key i).1 = .ok () ∧
      (SystemPrompt.move st key i).2.order.length = st.order.length) ∧
    (chipsContains st.chips key = false → (i < 0 ∨ i > (st.order.length : Int)) →
      SystemPrompt.insert st key content i = (.error (.indexRange i), st)) ∧
    (chipsContains st.chips key = true → key ∈ st.order →
      (i < 0 ∨ i > (st.order.length : Int) - 1) →
      SystemPrompt.move st key i = (.error (.indexRange i), st)) := by
  refine ⟨?_, ?_, ?_, ?_⟩
  · intro h h0 h1
    have hcond : ¬(i < 0 ∨ i > (st.order.length : Int)) := by omega
    simp [SystemPrompt.insert, h, hcond, listInsert_length]
  · intro h hmem h0 h1
    have hcond : ¬(i < 0 ∨ i ≥ (st.order.length : Int)) := by omega
    have hlen : (st.order.erase key).length = st.order.length - 1 :=
      List.length_erase_of_mem hmem
    have hpos : 0 < st.order.length :=
      List.length_pos.mpr (List.ne_nil_of_mem hmem)
    simp [SystemPrompt.move, h, hmem, hcond, listInsert_length, hlen]
    omega
  · intro h hcond
    unfold SystemPrompt.insert
    rw [if_neg (by simp [h]), if_pos hcond]
  · intro h hmem hcond
    unfold SystemPrompt.move
    rw [if_neg (by simp [h]), if_neg (by simp [hmem]), if_pos (by omega)]

/-- Concrete single-chip state used by the C3 witness. -/
def boundsCase : SystemPromptChipsSchema :=
  { order := ["a"], splitter := "\n\n", chips := [("a", { name := "a", content := "A" })] }

/-- Witness for C3: a successful `insert` at index 1 on a one-element order. -/
theorem insert_move_bounds_witness :
    (SystemPrompt.insert boundsCase "b" (ChipContent.str "B") 1).1 =
      .ok (mkChipFromContent "b" (ChipContent.str "B")) ∧
    (SystemPrompt.insert boundsCase "b" (ChipContent.str "B") 1).2.order.length =
      boundsCase.order.length + 1 :=
  (insert_move_bounds boundsCase "b" (ChipContent.str "B") 1).1 (by decide) (by decide)
    (by decide)

/-! ### C4: duplicate-key guard leaves state untouched -/

/-- C4. `add` and `insert` on a key already present in `chips` fail with the
duplicate-key error and return the chip set exactly unchanged: the raise
happens before any mutation, so no partially applied state is observable. -/
theorem duplicate_guard (st : SystemPromptChipsSchema) (key : String)
    (content : ChipContent) (i : Int) (h : chipsContains st.chips key = true) :
    SystemPrompt.add st key content = (.error (.duplicateKey key), st) ∧
    SystemPrompt.insert st key content i = (.error (.duplicateKey key), st) := by
  constructor
  · unfold SystemPrompt.add
    rw [if_pos h]
  · unfold SystemPrompt.insert
    rw [if_pos h]

/-- Concrete single-chip state used by the C4 witness. -/
def dupCase : SystemPromptChipsSchema :=
  { order := ["a"], splitter := "\n\n", chips := [("a", { name := "a", content := "A" })] }

/-- Witness for C4: re-adding the existing key `"a"` fails and keeps the state. -/
theorem duplicate_guard_witness :
    SystemPrompt.add dupCase "a" (ChipContent.str "Z") =
      (.error (.duplicateKey "a"), dupCase) ∧
    SystemPrompt.insert dupCase "a" (ChipContent.str "Z") 0 =
      (.error (.duplicateKey "a"), dupCase) :=
  duplicate_guard dupCase "a" (ChipContent.str "Z") 0 (by decide)

end FastAgent

namespace FastAgent

/-! ### C5: the name-equals-key invariant -/

/-- Every entry of the chips association list stores a chip whose `name`
equals its key. -/
def chipsNamesOk (l : List (String × SystemPromptChipSchema)) : Bool :=
  l.all fun p => p.2.name == p.1

/-- The name-equals-key invariant on a whole chip set. -/
def namesMatch (st : SystemPromptChipsSchema) : Bool :=
  chipsNamesOk st.chips

theorem chipsNamesOk_set (l : List (String × SystemPromptChipSchema)) (k : String)
    (c : SystemPromptChipSchema) (h : chipsNamesOk l = true) (hc : c.name = k) :
    chipsNamesOk (chipsSet l k c) = true := by
  induction l with
  | nil => simp [chipsSet, chipsNamesOk, hc]
  | cons p t ih =>
      obtain ⟨k₀, c₀⟩ := p
      simp only [chipsNamesOk, List.all_cons, Bool.and_eq_true, beq_iff_eq] at h
      by_cases hk : k₀ = k
      · simp [chipsSet, hk, chipsNamesOk, hc, h.2]
      · simp only [chipsNamesOk] at ih
        simp [chipsSet, hk, chipsNamesOk, h.1, ih h.2]

theorem chipsNamesOk_erase (l : List (String × SystemPromptChipSchema)) (k : String)
    (h : chipsNamesOk l = true) : chipsNamesOk (chipsErase l k) = true := by
  induction l with
  | nil => simp [chipsErase, chipsNamesOk]
  | cons p t ih =>
      obtain ⟨k₀, c₀⟩ := p
      simp only [chipsNamesOk, List.all_cons, Bool.and_eq_true, beq_iff_eq] at h
      by_cases hk : k₀ = k
      · simp only [chipsErase, hk, if_true, chipsNamesOk]
        exact h.2
      · simp only [chipsNamesOk] at ih
        simp [chipsErase, hk, chipsNamesOk, h.1, ih h.2]

theorem chipsNamesOk_get (l : List (String × SystemPromptChipSchema)) (k : String)
    (c : SystemPromptChipSchema) (h : chipsNamesOk l = true)
    (hg : chipsGet l k = some c) : c.name = k := by
  have hm := chipsGet_mem l k c hg
  have := List.all_eq_true.mp h _ hm
  simpa using this

theorem normalize_chip_name (key : String) (v : ChipValue) :
    (SystemPromptChipsSchema.normalize_chip key v).name = key := by
  cases v with
  | chip c =>
      by_cases h : c.name = key <;>
        simp [SystemPromptChipsSchema.normalize_chip, h]
  | record n c m =>
      by_cases h : n.getD key = key <;>
        simp [SystemPromptChipsSchema.normalize_chip, h]

theorem mkChipFromContent_name (key : String) (c : ChipContent) :
    (mkChipFromContent key c).name = key := by
  cases c <;> simp [mkChipFromContent, normalize_chip_name]

theorem wakeupAllAux_namesOk (keys : List String) (st : SystemPromptChipsSchema)
    (h : chipsNamesOk st.chips = true) :
    chipsNamesOk (SystemPrompt.wakeupAllAux keys st).2.chips = true := by
  induction keys generalizing st with
  | nil => simpa [SystemPrompt.wakeupAllAux] using h
  | cons k ks ih =>
      simp only [SystemPrompt.wakeupAllAux]
      cases hg : chipsGet st.chips k with
      | none => exact ih st h
      | some c =>
          by_cases hig : c.metadata.ignore = true
          · simp only [hig, if_true]
            have hname : c.name = k := chipsNamesOk_get _ _ c h hg
            exact ih _ (chipsNamesOk_set _ _ (awakeChip c) h hname)
          · simp only [hig, if_false]
            exact ih st h

/-- A chip set whose single chip is stored under a key that disagrees with
its `name`; `SystemPrompt.__init__` accepts it unmodified. -/
def badSchema : SystemPromptChipsSchema :=
  { order := ["a"], splitter := "\n\n", chips := [("a", { name := "b", content := "C" })] }

/-- Counterexample to C5 as stated: constructing the composer from an
existing `SystemPromptChipsSchema` value performs no normalization
(`self.chips = content`), so a chip stored under key `"a"` keeps its
mismatched name `"b"` and the invariant fails right after construction. -/
theorem init_schema_names_cex :
    namesMatch (SystemPromptObj.ofContent (.schema badSchema)).chips = false := by
  decide

/-- C5 (amended). Construction from a plain string or from a structured
record establishes the name-equals-key invariant, any chip a mutation stores
is a (possibly corrected) copy whose name equals the key, and every standard
mutation preserves the invariant; construction from an existing chip-set
value, however, stores the given value unchanged, so the invariant holds
afterwards only if the given value already satisfied it. -/
theorem names_match_invariant (s : String) (d : ChipsDictData)
    (st : SystemPromptChipsSchema) (key : String) (c : ChipContent) (i : Int) :
    namesMatch (SystemPromptChipsSchema.default s) = true ∧
    namesMatch (SystemPromptChipsSchema.from_dict d) = true ∧
    (mkChipFromContent key c).name = key ∧
    (namesMatch st = true →
      namesMatch (SystemPrompt.add st key c).2 = true ∧
      namesMatch (SystemPrompt.insert st key c i).2 = true ∧
      namesMatch (SystemPrompt.update st c key) = true ∧
      namesMatch (SystemPrompt.move st key i).2 = true ∧
      namesMatch (SystemPrompt.remove st key).2 = true ∧
      namesMatch (SystemPrompt.ignore st key).2 = true ∧
      namesMatch (SystemPrompt.wakeup st key).2 = true ∧
      namesMatch (SystemPrompt.toggle st key).2 = true ∧
      namesMatch (SystemPrompt.wakeup_all st).2 = true) := by
  refine ⟨?_, ?_, mkChipFromContent_name key c, ?_⟩
  · simp [namesMatch, chipsNamesOk, SystemPromptChipsSchema.default,
      SystemPromptChipSchema.default]
  · simp only [namesMatch, chipsNamesOk, SystemPromptChipsSchema.from_dict,
      List.all_eq_true]
    intro p hp
    obtain ⟨q, _, rfl⟩ := List.mem_map.mp hp
    simp [normalize_chip_name]
  · intro h
    refine ⟨?_, ?_, ?_, ?_, ?_, ?_, ?_, ?_, ?_⟩
    · by_cases hk : chipsContains st.chips key = true
      · simpa [SystemPrompt.add, hk, namesMatch] using h
      · simp only [namesMatch] at h ⊢
        simp only [SystemPrompt.add, hk, if_false]
        exact chipsNamesOk_set _ _ _ h (mkChipFromContent_name key c)
    · by_cases hk : chipsContains st.chips key = true
      · simpa [SystemPrompt.insert, hk, namesMatch] using h
      · by_cases hi : i < 0 ∨ i > (st.order.length : Int)
        · simpa [SystemPrompt.insert, hk, hi, namesMatch] using h
        · simp only [namesMatch] at h ⊢
          simp only [SystemPrompt.insert, hk, hi, if_false]
          exact chipsNamesOk_set _ _ _ h (mkChipFromContent_name key c)
    · simp only [namesMatch] at h ⊢
      simp only [SystemPrompt.update]
      exact chipsNamesOk_set _ _ _ h (mkChipFromContent_name key c)
    · simp only [namesMatch] at h ⊢
      unfold SystemPrompt.move
      split
      · exact h
      split
      · exact h
      split
      · exact h
      · exact h
    · by_cases hk : chipsContains st.chips key = true
      · simp only [namesMatch] at h ⊢
        simp only [SystemPrompt.remove, hk, not_true, if_false]
        exact chipsNamesOk_erase _ _ h
      · simpa [SystemPrompt.remove, hk, namesMatch] using h
    · simp only [namesMatch] at h ⊢
      unfold SystemPrompt.ignore
      cases hg : chipsGet st.chips key with
      | none => exact h
      | some c₀ =>
          have hname : c₀.name = key := chipsNamesOk_get _ _ c₀ h hg
          exact chipsNamesOk_set _ _
            { c₀ with metadata := { c₀.metadata with ignore := true } } h hname
    · simp only [namesMatch] at h ⊢
      unfold SystemPrompt.wakeup
      cases hg : chipsGet st.chips key with
      | none => exact h
      | some c₀ =>
          have hname : c₀.name = key := chipsNamesOk_get _ _ c₀ h hg
          exact chipsNamesOk_set _ _
            { c₀ with metadata := { c₀.metadata with ignore := false } } h hname
    · simp only [namesMatch] at h ⊢
      unfold SystemPrompt.toggle
      cases hg : chipsGet st.chips key with
      | none => exact h
      | some c₀ =>
          have hname : c₀.name = key := chipsNamesOk_get _ _ c₀ h hg
          exact chipsNamesOk_set _ _
            { c₀ with metadata := { c₀.metadata with ignore := !c₀.metadata.ignore } } h hname
    · simp only [namesMatch] at h ⊢
      exact wakeupAllAux_namesOk _ _ h

/-- Concrete well-formed state used by the C5 witness. -/
def invCase : SystemPromptChipsSchema :=
  { order := ["a"], splitter := "\n\n", chips := [("a", { name := "a", content := "A" })] }

/-- Witness for C5 (amended): `update` with a chip whose name disagrees with
the target key still yields a state satisfying the invariant. -/
theorem names_match_invariant_witness :
    namesMatch (SystemPrompt.update invCase
      (ChipContent.chip { name := "z", content := "Z" }) "b") = true :=
  ((names_match_invariant "hello" { chips := [] } invCase "b"
      (ChipContent.chip { name := "z", content := "Z" }) 0).2.2.2 (by decide)).2.2.1

end FastAgent

namespace FastAgent

/-! ### C6: update is an upsert, appending to order only when absent there -/

/-- A state with a dangling order entry: `"k"` occurs in `order` but not in
`chips`. -/
def danglingCase : SystemPromptChipsSchema :=
  { order := ["k"], splitter := "\n\n", chips := [] }

/-- Counterexample to C6 as stated: with `"k"` absent from `chips` but already
present in `order` (a dangling entry), `update` creates the chip but does NOT
append the key to the end of `order` — the append is guarded by
order-membership, not by chips-membership. -/
theorem update_dangling_cex :
    chipsContains danglingCase.chips "k" = false ∧
    (SystemPrompt.update danglingCase (ChipContent.str "c") "k").order ≠
      danglingCase.order ++ ["k"] := by
  decide

/-- C6 (amended). `update(content, key)` never fails: it always overwrites the
chip stored under the key with a newly constructed one (same normalization as
`insert`), leaving every other key's chip untouched; the key is appended to
the end of `order` exactly when it does not already occur in `order` — an
existing occurrence (in particular a dangling one) keeps its position and is
not re-appended. -/
theorem update_upsert (st : SystemPromptChipsSchema) (content : ChipContent)
    (key : String) :
    chipsGet (SystemPrompt.update st content key).chips key =
      some (mkChipFromContent key content) ∧
    (∀ k, k ≠ key → chipsGet (SystemPrompt.update st content key).chips k =
      chipsGet st.chips k) ∧
    (key ∈ st.order → (SystemPrompt.update st content key).order = st.order) ∧
    (key ∉ st.order → (SystemPrompt.update st content key).order = st.order ++ [key]) ∧
    (SystemPrompt.update st content key).splitter = st.splitter := by
  refine ⟨?_, ?_, ?_, ?_, rfl⟩
  · exact chipsGet_set_self st.chips key (mkChipFromContent key content)
  · intro k hk
    exact chipsGet_set_ne st.chips key k (mkChipFromContent key content) hk
  · intro h
    simp [SystemPrompt.update, h]
  · intro h
    simp [SystemPrompt.update, h]

/-- Concrete single-chip state used by the C6 witness. -/
def upsertCase : SystemPromptChipsSchema :=
  { order := ["a"], splitter := "\n\n", chips := [("a", { name := "a", content := "A" })] }

/-- Witness for C6 (amended): updating a fresh key appends it to `order`. -/
theorem update_upsert_witness :
    (SystemPrompt.update upsertCase (ChipContent.str "B") "b").order =
      upsertCase.order ++ ["b"] :=
  (update_upsert upsertCase (ChipContent.str "B") "b").2.2.2.1 (by decide)

end FastAgent


namespace FastAgent

/-! ### C7: wakeup_all -/

/-- Whether the key resolves to a chip that is currently ignored. -/
def isIgnoredKey (chips : List (String × SystemPromptChipSchema)) (k : String) : Bool :=
  match chipsGet chips k with
  | some c => c.metadata.ignore
  | none => false

theorem awakeChip_eq_self (c : SystemPromptChipSchema)
    (h : c.metadata.ignore = false) : awakeChip c = c := by
  obtain ⟨n, ct, ⟨ig⟩⟩ := c
  cases ig with
  | false => rfl
  | true => simp at h

theorem wakeupAllAux_state (keys : List String) (st : SystemPromptChipsSchema) :
    (SystemPrompt.wakeupAllAux keys st).2.order = st.order ∧
    (SystemPrompt.wakeupAllAux keys st).2.splitter = st.splitter ∧
    ∀ k, chipsGet (SystemPrompt.wakeupAllAux keys st).2.chips k =
      (chipsGet st.chips k).map fun c => if k ∈ keys then awakeChip c else c := by
  induction keys generalizing st with
  | nil =>
      refine ⟨rfl, rfl, ?_⟩
      intro k
      cases hO : chipsGet st.chips k <;> simp [SystemPrompt.wakeupAllAux, hO]
  | cons k₀ ks ih =>
      cases hg : chipsGet st.chips k₀ with
      | none =>
          obtain ⟨ih1, ih2, ih3⟩ := ih st
          simp only [SystemPrompt.wakeupAllAux, hg]
          refine ⟨ih1, ih2, ?_⟩
          intro k
          rw [ih3 k]
          by_cases hkk : k = k₀
          · subst hkk
            simp [hg]
          · simp [List.mem_cons, hkk]
      | some c =>
          by_cases hig : c.metadata.ignore = true
          · obtain ⟨ih1, ih2, ih3⟩ :=
              ih { st with chips := chipsSet st.chips k₀ (awakeChip c) }
            simp only [SystemPrompt.wakeupAllAux, hg]
            rw [if_pos hig]
            refine ⟨?_, ?_, ?_⟩
            · exact ih1
            · exact ih2
            · intro k
              refine Eq.trans (ih3 k) ?_
              by_cases hkk : k = k₀
              · subst hkk
                by_cases hmem : k ∈ ks <;>
                  simp [chipsGet_set_self, hg, hmem, awakeChip]
              · rw [chipsGet_set_ne st.chips k₀ k (awakeChip c) hkk]
                simp [List.mem_cons, hkk]
          · obtain ⟨ih1, ih2, ih3⟩ := ih st
            simp only [SystemPrompt.wakeupAllAux, hg]
            rw [if_neg hig]
            refine ⟨ih1, ih2, ?_⟩
            intro k
            rw [ih3 k]
            by_cases hkk : k = k₀
            · subst hkk
              have hig2 : c.metadata.ignore = false := by simpa using hig
              by_cases hmem : k ∈ ks <;>
                simp [hg, hmem, awakeChip_eq_self c hig2]
            · simp [List.mem_cons, hkk]

theorem wakeupAllAux_keys (keys : List String) (st : SystemPromptChipsSchema)
    (hnd : keys.Nodup) :
    (SystemPrompt.wakeupAllAux keys st).1 = keys.filter (isIgnoredKey st.chips) := by
  induction keys generalizing st with
  | nil => rfl
  | cons k₀ ks ih =>
      obtain ⟨hk₀, hnd'⟩ := List.nodup_cons.mp hnd
      cases hg : chipsGet st.chips k₀ with
      | none =>
          simp only [SystemPrompt.wakeupAllAux, hg]
          rw [ih st hnd', List.filter_cons]
          simp [isIgnoredKey, hg]
      | some c =>
          by_cases hig : c.metadata.ignore = true
          · simp only [SystemPrompt.wakeupAllAux, hg]
            rw [if_pos hig]
            have hfc : ∀ x ∈ ks,
                isIgnoredKey (chipsSet st.chips k₀ (awakeChip c)) x =
                  isIgnoredKey st.chips x := by
              intro x hx
              have hxne : x ≠ k₀ := fun e => hk₀ (e ▸ hx)
              simp [isIgnoredKey, chipsGet_set_ne _ _ _ _ hxne]
            show k₀ :: (SystemPrompt.wakeupAllAux ks
                { st with chips := chipsSet st.chips k₀ (awakeChip c) }).1 =
              List.filter (isIgnoredKey st.chips) (k₀ :: ks)
            rw [ih _ hnd', List.filter_cons]
            have : isIgnoredKey st.chips k₀ = true := by simp [isIgnoredKey, hg, hig]
            simp only [this, if_true]
            congr 1
            exact List.filter_congr hfc
          · have hig2 : c.metadata.ignore = false := by simpa using hig
            simp only [SystemPrompt.wakeupAllAux, hg]
            rw [if_neg hig]
            rw [ih st hnd', List.filter_cons]
            have : isIgnoredKey st.chips k₀ = false := by simp [isIgnoredKey, hg, hig2]
            simp [this]

/-- The concrete scenario of C7: chips `a` and `b` ignored, `c` awake. -/
def wakeAllCase : SystemPromptChipsSchema :=
  { order := ["a", "b", "c"]
    splitter := "\n\n"
    chips := [("a", { name := "a", content := "A", metadata := { ignore := true } }),
              ("b", { name := "b", content := "B", metadata := { ignore := true } }),
              ("c", { name := "c", content := "C", metadata := { ignore := false } })] }

/-- C7. `wakeup_all` never fails (it is total): afterwards every key of
`order` whose chip exists has `ignore = false` while chips unreachable from
`order` are untouched, `order` itself is unchanged, and (for duplicate-free
order) the returned list is exactly the keys of `order` whose chip exists and
was ignored, in order-traversal sequence; in the concrete case with `a`, `b`
ignored and `c` awake it returns `["a", "b"]` and afterwards all three chips
have `ignore = false`. -/
theorem wakeup_all_correct (st : SystemPromptChipsSchema) :
    (∀ k, chipsGet (SystemPrompt.wakeup_all st).2.chips k =
      (chipsGet st.chips k).map fun c => if k ∈ st.order then awakeChip c else c) ∧
    (SystemPrompt.wakeup_all st).2.order = st.order ∧
    (st.order.Nodup →
      (SystemPrompt.wakeup_all st).1 = st.order.filter (isIgnoredKey st.chips)) ∧
    ((SystemPrompt.wakeup_all wakeAllCase).1 = ["a", "b"] ∧
      ((SystemPrompt.wakeup_all wakeAllCase).2.chips.all
        fun p => p.2.metadata.ignore == false) = true) := by
  obtain ⟨h1, _, h3⟩ := wakeupAllAux_state st.order st
  refine ⟨h3, h1, ?_, by decide⟩
  intro hnd
  exact wakeupAllAux_keys st.order st hnd

/-- Witness for C7: the returned key list on the concrete scenario, with the
duplicate-free-order hypothesis discharged. -/
theorem wakeup_all_correct_witness :
    (SystemPrompt.wakeup_all wakeAllCase).1 =
      wakeAllCase.order.filter (isIgnoredKey wakeAllCase.chips) :=
  (wakeup_all_correct wakeAllCase).2.2.1 (by decide)

end FastAgent

namespace FastAgent

/-! ### C8: single-string round trip -/

/-- C8. Constructing the composer from a plain string `s` (one default-keyed
chip, order `[default]`, splitter two newlines) and rendering with the default
flat-text renderer returns exactly `s`. -/
theorem single_string_round_trip (s : String) :
    (SystemPromptObj.ofContent (.str s)).get_system_prompt .unspecified = .ok s := by
  simp [SystemPromptObj.ofContent, SystemPromptObj.get_system_prompt,
    SystemPromptObj.strRender, SystemPromptChipsSchema.default,
    SystemPromptChipSchema.default, SystemPromptChipsSchema.to_str, chipPart,
    chipsGet, SystemPromptChipMetadataSchema.default, joinWith]

/-! ### C9: rendering-mode dispatch -/

/-- C9. `get_system_prompt` renders flat text when the mode is unspecified,
`PromptType.STR` or the literal `"str"`; renders tagged markup for
`PromptType.XML` or the literal `"xml"`; uses the override supplied at
construction in place of the corresponding default; and fails with the
invalid-mode error for every other literal. -/
theorem get_system_prompt_modes (sp : SystemPromptObj) (s : String) :
    sp.get_system_prompt .unspecified = .ok sp.strRender ∧
    sp.get_system_prompt (.en .STR) = .ok sp.strRender ∧
    sp.get_system_prompt (.lit "str") = .ok sp.strRender ∧
    sp.get_system_prompt (.en .XML) = .ok sp.xmlRender ∧
    sp.get_system_prompt (.lit "xml") = .ok sp.xmlRender ∧
    (∀ f, SystemPromptObj.strRender { sp with to_str := some f } = f sp.chips) ∧
    (SystemPromptObj.strRender { sp with to_str := none } = sp.chips.to_str) ∧
    (∀ f, SystemPromptObj.xmlRender { sp with to_xml := some f } = f sp.chips) ∧
    (SystemPromptObj.xmlRender { sp with to_xml := none } = sp.chips.to_xml) ∧
    (s ≠ "str" → s ≠ "xml" → sp.get_system_prompt (.lit s) = .error .invalidMode) := by
  refine ⟨rfl, rfl, by simp [SystemPromptObj.get_system_prompt], rfl,
    by simp [SystemPromptObj.get_system_prompt], fun f => rfl, rfl, fun f => rfl, rfl, ?_⟩
  intro h1 h2
  simp [SystemPromptObj.get_system_prompt, h1, h2]

/-- Witness for C9: the unrecognized literal `"mode"` raises the
invalid-mode error. -/
theorem get_system_prompt_modes_witness :
    (SystemPromptObj.ofContent (.str "hi")).get_system_prompt (.lit "mode") =
      .error .invalidMode :=
  (get_system_prompt_modes (SystemPromptObj.ofContent (.str "hi"))
    "mode").2.2.2.2.2.2.2.2.2 (by decide) (by decide)

/-! ### C10: insert does not check order membership (dangling duplicates) -/

/-- A state with a dangling order entry used for C10. -/
def ghostOrderCase : SystemPromptChipsSchema :=
  { order := ["k"], splitter := "\n\n", chips := [] }

/-- C10. When the key is absent from `chips` but already occurs in `order`
(a dangling entry), `insert` with a valid index succeeds and unconditionally
inserts the key into `order` at that index, so the key afterwards occurs at
least twice; `add` on the same state, by contrast, checks order membership
and leaves `order` unchanged. -/
theorem insert_dangling (st : SystemPromptChipsSchema) (key : String)
    (content : ChipContent) (i : Int)
    (habs : chipsContains st.chips key = false) (hmem : key ∈ st.order)
    (h0 : 0 ≤ i) (h1 : i ≤ (st.order.length : Int)) :
    (SystemPrompt.insert st key content i).1 = .ok (mkChipFromContent key content) ∧
    (SystemPrompt.insert st key content i).2.order = listInsert i.toNat key st.order ∧
    2 ≤ (SystemPrompt.insert st key content i).2.order.count key ∧
    (SystemPrompt.add st key content).2.order = st.order := by
  have hcond : ¬(i < 0 ∨ i > (st.order.length : Int)) := by omega
  refine ⟨?_, ?_, ?_, ?_⟩
  · simp [SystemPrompt.insert, habs, hcond]
  · simp [SystemPrompt.insert, habs, hcond]
  · have hcount : 0 < st.order.count key := List.count_pos_iff.mpr hmem
    have horder : (SystemPrompt.insert st key content i).2.order =
        listInsert i.toNat key st.order := by
      simp [SystemPrompt.insert, habs, hcond]
    rw [horder, listInsert_count]
    omega
  · simp [SystemPrompt.add, habs, hmem]

/-- Witness for C10: inserting the dangling key `"k"` at index 0 duplicates it. -/
theorem insert_dangling_witness :
    (SystemPrompt.insert ghostOrderCase "k" (ChipContent.str "K") 0).2.order =
      listInsert (Int.toNat 0) "k" ghostOrderCase.order ∧
    2 ≤ (SystemPrompt.insert ghostOrderCase "k" (ChipContent.str "K") 0).2.order.count "k" := by
  have h := insert_dangling ghostOrderCase "k" (ChipContent.str "K") 0
    (by decide) (by decide) (by decide) (by decide)
  exact ⟨h.2.1, h.2.2.1⟩

end FastAgent
